import Mathlib

/-!
Verification development for the theine in-process cache (Python).

The definitions below are a shallow embedding of the Python source:
  * `Shard` embeds `theine/theine.py` class `Shard` (two dictionaries, hit and
    miss counters backed by `itertools.count`);
  * `WriteBuffer` embeds `theine/write_buffer.py`;
  * `StripedBuffer.add` embeds the read path of `theine/striped_buffer.py`;
  * `CacheSt`/`Cache.*` embed the facade class `Cache` of `theine/theine.py`;
  * `CacheStats` embeds `theine/models.py`.

Modelling conventions:
  * Python dictionaries become total functions into `Option` updated with `upd`;
  * `time.monotonic_ns()` becomes an explicit `now : Nat` argument;
  * `itertools.count` counters become a `Nat` holding the number of `next`
    calls made so far; a `next` call returns the current value and advances it;
  * fallible code (`raise`, un-defaulted `dict.pop`) returns `Except`/`Option`;
  * the native `theine_core` package (the `spread` hash mixer and the
    `TlfuCore` policy) is not part of this repository's Python sources; it is
    abstracted as the parameters of a `CacheCtx` (a fingerprint function and
    the policy's `set`/`access` callbacks);
  * a `timedelta` is represented by its exact total number of microseconds
    (an `Int`); `total_seconds()` is zero exactly when that integer is zero,
    and its sign is the sign of that integer, so the zero/negative checks of
    `_ttl_nano` are captured exactly;
  * thread locks disappear: operations are modelled as the sequential
    executions the claims quantify over, with the one observable lock outcome
    (the try-acquire in `WriteBuffer.add`) kept as an explicit boolean.
-/

set_option linter.unusedSectionVars false
set_option linter.unnecessarySimpa false

namespace Theine

/-- Pointwise update of a function-backed finite map, the image of Python
`d[a] = v` (with `v := none` for `d.pop(a)`). -/
def upd {α β : Type} [DecidableEq α] (m : α → Option β) (a : α) (v : Option β) :
    α → Option β :=
  fun x => if x = a then v else m x

/-- Embeds `theine/models.py` class `Entry`: a cached value together with its
absolute expiration time in nanoseconds, `0` meaning "no TTL". -/
structure Entry (VT : Type) where
  value : VT
  expire : Nat
deriving DecidableEq

/-- Embeds `theine/theine.py` class `Shard`: the entry map `_map`, the
fingerprint map `_key_map`, and the two `itertools.count` counters. -/
structure Shard (KT VT : Type) where
  map : KT → Option (Entry VT)
  key_map : Nat → Option KT
  hits : Nat
  misses : Nat

/-- A freshly constructed shard (`Shard.__init__`). -/
def Shard.empty {KT VT : Type} : Shard KT VT :=
  { map := fun _ => none, key_map := fun _ => none, hits := 0, misses := 0 }

instance {KT VT : Type} : Inhabited (Shard KT VT) := ⟨Shard.empty⟩

variable {KT VT : Type} [DecidableEq KT]

/-- Embeds `Shard.get`: on a present entry, expired means
`expire > 0 and expire <= now`; an expired entry is popped from both maps and
counted as a miss, otherwise the value is returned and counted as a hit.
Returns the `(value, ok)` pair together with the post-state. -/
def Shard.get (s : Shard KT VT) (key : KT) (key_hash : Nat) (now : Nat) :
    (Option VT × Bool) × Shard KT VT :=
  match s.map key with
  | some entry =>
      if 0 < entry.expire ∧ entry.expire ≤ now then
        ((none, false),
          { s with
            misses := s.misses + 1
            map := upd s.map key none
            key_map := upd s.key_map key_hash none })
      else
        ((some entry.value, true), { s with hits := s.hits + 1 })
  | none => ((none, false), { s with misses := s.misses + 1 })

/-- The expiration computed by `Shard.set`, `Shard._set_nolock` and
`Shard.set_ttl`: `expire = 0; if ttl > 0: expire = time.monotonic_ns() + ttl`. -/
def expireOf (ttl : Int) (now : Nat) : Nat :=
  if 0 < ttl then now + ttl.toNat else 0

/-- Embeds `Shard.set`.  The prior holder of the same fingerprint is evicted
first (`_key_map.pop(key_hash)` then `_map.pop(removed)`); the second pop has
no default, so a state in which the fingerprint map points at an absent key
raises `KeyError`, embedded as `none`. -/
def Shard.set? (s : Shard KT VT) (key : KT) (key_hash : Nat) (value : VT)
    (ttl : Int) (now : Nat) : Option (Shard KT VT) :=
  let ins : Shard KT VT → Shard KT VT := fun s1 =>
    { s1 with
      map := upd s1.map key (some { value := value, expire := expireOf ttl now })
      key_map := upd s1.key_map key_hash (some key) }
  match s.key_map key_hash with
  | some removed =>
      match s.map removed with
      | none => none
      | some _ =>
          some (ins { s with
            map := upd s.map removed none
            key_map := upd s.key_map key_hash none })
  | none => some (ins s)

/-- Embeds `Shard.set_ttl`: in-place update of the expiration of an existing
entry, no-op when the key is absent. -/
def Shard.set_ttl (s : Shard KT VT) (key : KT) (ttl : Int) (now : Nat) :
    Shard KT VT :=
  match s.map key with
  | none => s
  | some entry =>
      { s with
        map := upd s.map key (some { entry with expire := expireOf ttl now }) }

/-- Embeds `Shard.remove`: pop the fingerprint, then delete the key it named;
note the source pops `_key_map` even when the subsequent `del` finds nothing. -/
def Shard.remove (s : Shard KT VT) (key_hash : Nat) : Bool × Shard KT VT :=
  match s.key_map key_hash with
  | none => (false, s)
  | some key =>
      match s.map key with
      | none => (false, { s with key_map := upd s.key_map key_hash none })
      | some _ =>
          (true,
            { s with
              map := upd s.map key none
              key_map := upd s.key_map key_hash none })

/-- Embeds `Shard.remove_expired`: the source looks the fingerprint up in
`_key_map` and the named key up in `_map` and, when both are present, pops
both.  It never reads the clock, so no expiration check is modelled. -/
def Shard.remove_expired (s : Shard KT VT) (key_hash : Nat) : Shard KT VT :=
  match s.key_map key_hash with
  | none => s
  | some key =>
      match s.map key with
      | none => s
      | some _ =>
          { s with
            map := upd s.map key none
            key_map := upd s.key_map key_hash none }

/-- Embeds `Shard.clear`: both dictionaries are emptied (counters stay). -/
def Shard.clear (s : Shard KT VT) : Shard KT VT :=
  { s with map := fun _ => none, key_map := fun _ => none }

/-- Capacity of the write buffer, `BufferSize` in `theine/write_buffer.py`. -/
def BufferSize : Nat := 16

/-- Embeds `theine/write_buffer.py` class `WriteBuffer`: the fixed 16-slot
array of `(fingerprint, ttl)` records and the tail index. -/
structure WriteBuffer where
  buffer : List (Nat × Int)
  tail : Nat
deriving DecidableEq

/-- Embeds `WriteBuffer.add`.  The record is written at the tail and the tail
advances; then the policy lock is acquired, blocking when the buffer is full
and try-only otherwise — `acq` is the outcome of that try-acquire.  On
acquisition the staged prefix is snapshotted and the tail reset; the returned
`Option` is the batch handed to `send_to_core`, `none` when no drain
happened. -/
def WriteBuffer.add (wb : WriteBuffer) (key_hash : Nat) (ttl : Int)
    (acq : Bool) : WriteBuffer × Option (List (Nat × Int)) :=
  let buf := wb.buffer.set wb.tail (key_hash, ttl)
  let tail := wb.tail + 1
  let got : Bool := if BufferSize ≤ tail then true else acq
  if got then ({ buffer := buf, tail := 0 }, some (buf.take tail))
  else ({ buffer := buf, tail := tail }, none)

/-- A freshly constructed write buffer (`WriteBuffer.__init__`). -/
def WriteBuffer.init : WriteBuffer :=
  { buffer := List.replicate BufferSize (0, 0), tail := 0 }

/-- Embeds `theine/striped_buffer.py` `StripedBuffer.add` as executed
sequentially (the stripe's try-lock is uncontended and succeeds): `rand` is
the value of `getrandbits(32)`; a full stripe drops the sample, while an
append that fills a stripe swaps it out and returns it for `clear_buffer`. -/
def StripedBuffer.add (bufs : List (List Nat)) (hash_value : Nat)
    (rand : Nat) : List (List Nat) × Option (List Nat) :=
  let index := rand &&& (bufs.length - 1)
  let b := bufs.getD index []
  if 16 ≤ b.length then (bufs, none)
  else
    let b2 := b ++ [hash_value]
    if b.length = 16 - 1 then (bufs.set index [], some b2)
    else (bufs.set index b2, none)

/-- Embeds `theine/models.py` class `CacheStats`.  `hit_rate` is kept as an
exact rational; the source stores the Python float `hit_count/request_count`,
whose division-by-zero behaviour is what the claims are about. -/
structure CacheStats where
  request_count : Nat
  hit_count : Nat
  miss_count : Nat
  hit_rate : ℚ
deriving DecidableEq

/-- Embeds the `CacheStats` constructor: Python `hit / total` raises
`ZeroDivisionError` when `total == 0`, embedded as `Except.error`. -/
def CacheStats.make (total hit : Nat) : Except String CacheStats :=
  if total = 0 then .error "division by zero"
  else
    .ok { request_count := total, hit_count := hit, miss_count := total - hit
          hit_rate := (hit : ℚ) / (total : ℚ) }

/-- Embeds `Cache._ttl_nano`.  The argument is the `timedelta` as its exact
total number of microseconds; `total_seconds() == 0` holds exactly when that
number is zero, and `int(seconds * 1e9)` is its value in nanoseconds. -/
def ttlNano (ttl : Option Int) : Except String Int :=
  match ttl with
  | none => .ok 0
  | some micros =>
      if micros = 0 then .error "ttl must be positive"
      else .ok (micros * 1000)

/-- The two native `theine_core` collaborators of the facade, which are not
part of this repository's Python sources: the `spread`-of-`hash` fingerprint
function, and the policy core's `set` (returning evicted fingerprints) and
`access` entry points, kept abstract over a policy state `CoreSt`. -/
structure CacheCtx (KT CoreSt : Type) where
  fphash : KT → Nat
  coreSet : CoreSt → List (Nat × Int) → CoreSt × List Nat
  coreAccess : CoreSt → List Nat → CoreSt

/-- Embeds the mutable state of `theine/theine.py` class `Cache`: the shard
tuple, the policy core state, the striped read buffer and the write buffer. -/
structure CacheSt (KT VT CoreSt : Type) where
  shards : List (Shard KT VT)
  core : CoreSt
  readBuf : List (List Nat)
  wbuf : WriteBuffer

/-- Embeds `Cache.__init__` with `shardCount` shards and `stripeCount` read
stripes (the source derives both from the CPU count; every claim is uniform
in them). -/
def Cache.init (KT VT CoreSt : Type) (shardCount stripeCount : Nat)
    (core : CoreSt) : CacheSt KT VT CoreSt :=
  { shards := List.replicate shardCount Shard.empty
    core := core
    readBuf := List.replicate stripeCount []
    wbuf := WriteBuffer.init }

variable {CoreSt : Type}

/-- Embeds `Cache._remove_keys`: each evicted fingerprint is removed from its
owning shard (`key & (shard_count - 1)`). -/
def removeKeys (shards : List (Shard KT VT)) (keys : List Nat) :
    List (Shard KT VT) :=
  keys.foldl
    (fun ss k =>
      let idx := k &&& (ss.length - 1)
      ss.set idx ((ss.getD idx default).remove k).2)
    shards

/-- Embeds the write path shared by `Cache.set`, `Cache.delete` and
`Cache._access`: `WriteBuffer.add` with the sequentially-executing
try-acquire succeeding, followed by the drain callbacks `_drain_write`
(`core.set`) and `_remove_keys`. -/
def Cache.writeAdd (ctx : CacheCtx KT CoreSt) (c : CacheSt KT VT CoreSt)
    (key_hash : Nat) (ttl : Int) : CacheSt KT VT CoreSt :=
  match WriteBuffer.add c.wbuf key_hash ttl true with
  | (wb2, some batch) =>
      let r := ctx.coreSet c.core batch
      { c with core := r.1, wbuf := wb2, shards := removeKeys c.shards r.2 }
  | (wb2, none) => { c with wbuf := wb2 }

/-- Embeds `Cache.get`: fingerprint, shard index `kh & (shard_count - 1)`,
shard lookup, and on a hit the read-buffer sample (whose drain calls
`core.access`).  `rand` is the stripe-selection randomness. -/
def Cache.get (ctx : CacheCtx KT CoreSt) (c : CacheSt KT VT CoreSt) (key : KT)
    (now : Nat) (rand : Nat) : (Option VT × Bool) × CacheSt KT VT CoreSt :=
  let kh := ctx.fphash key
  let idx := kh &&& (c.shards.length - 1)
  let r := (c.shards.getD idx default).get key kh now
  let c1 := { c with shards := c.shards.set idx r.2 }
  (r.1,
    if r.1.2 then
      let rb := StripedBuffer.add c1.readBuf kh rand
      { c1 with
        readBuf := rb.1
        core := match rb.2 with
          | some keys => ctx.coreAccess c1.core keys
          | none => c1.core }
    else c1)

/-- Embeds `Cache.set`: `_ttl_nano` may raise, the shard `set` stores the
entry (and may raise `KeyError` on a broken state), then the write buffer
receives `(kh, ttl_ns)`. -/
def Cache.set (ctx : CacheCtx KT CoreSt) (c : CacheSt KT VT CoreSt) (key : KT)
    (value : VT) (ttl : Option Int) (now : Nat) :
    Except String (CacheSt KT VT CoreSt) :=
  let kh := ctx.fphash key
  match ttlNano ttl with
  | .error e => .error e
  | .ok ttl_ns =>
      let idx := kh &&& (c.shards.length - 1)
      match (c.shards.getD idx default).set? key kh value ttl_ns now with
      | none => .error "KeyError"
      | some sh2 =>
          .ok (Cache.writeAdd ctx { c with shards := c.shards.set idx sh2 }
            kh ttl_ns)

/-- Embeds `Cache.delete`: shard `remove` by fingerprint, then the write
buffer receives the delete sentinel `(kh, -1)`. -/
def Cache.delete (ctx : CacheCtx KT CoreSt) (c : CacheSt KT VT CoreSt)
    (key : KT) : Bool × CacheSt KT VT CoreSt :=
  let kh := ctx.fphash key
  let idx := kh &&& (c.shards.length - 1)
  let r := (c.shards.getD idx default).remove kh
  (r.1, Cache.writeAdd ctx { c with shards := c.shards.set idx r.2 } kh (-1))

/-- Embeds the loop of `Cache.stats`: for each shard, `next` on the hit and
miss counters returns the current value and advances the counter. -/
def statsGo : List (Shard KT VT) → Nat → Nat →
    (Nat × Nat) × List (Shard KT VT)
  | [], h, m => ((h, m), [])
  | s :: rest, h, m =>
      let r := statsGo rest (h + s.hits) (m + s.misses)
      (r.1, { s with hits := s.hits + 1, misses := s.misses + 1 } :: r.2)

/-- Embeds `Cache.stats`: sum the consumed counter values across shards and
build a `CacheStats` from them. -/
def Cache.stats (c : CacheSt KT VT CoreSt) :
    Except String CacheStats × CacheSt KT VT CoreSt :=
  let r := statsGo c.shards 0 0
  (CacheStats.make (r.1.1 + r.1.2) r.1.1, { c with shards := r.2 })

/-- Total number of hits recorded across the shards of a cache. -/
def sumHits (c : CacheSt KT VT CoreSt) : Nat :=
  (c.shards.map Shard.hits).sum

/-- Total number of misses recorded across the shards of a cache. -/
def sumMisses (c : CacheSt KT VT CoreSt) : Nat :=
  (c.shards.map Shard.misses).sum

@[simp]
theorem upd_self {α β : Type} [DecidableEq α] (m : α → Option β) (a : α)
    (v : Option β) : upd m a v a = v := by
  simp [upd]

theorem upd_other {α β : Type} [DecidableEq α] (m : α → Option β) (a x : α)
    (v : Option β) (h : x ≠ a) : upd m a v x = m x := by
  simp [upd, h]

theorem Shard.get_hit (s : Shard KT VT) (key : KT) (kh now : Nat)
    (e : Entry VT) (hm : s.map key = some e)
    (hx : ¬(0 < e.expire ∧ e.expire ≤ now)) :
    s.get key kh now =
      ((some e.value, true), { s with hits := s.hits + 1 }) := by
  unfold Shard.get
  rw [hm]
  simp [hx]

theorem Shard.get_expired (s : Shard KT VT) (key : KT) (kh now : Nat)
    (e : Entry VT) (hm : s.map key = some e)
    (hx : 0 < e.expire ∧ e.expire ≤ now) :
    s.get key kh now =
      ((none, false),
        { s with
          misses := s.misses + 1
          map := upd s.map key none
          key_map := upd s.key_map kh none }) := by
  unfold Shard.get
  rw [hm]
  simp [hx]

theorem Shard.get_absent (s : Shard KT VT) (key : KT) (kh now : Nat)
    (hm : s.map key = none) :
    s.get key kh now = ((none, false), { s with misses := s.misses + 1 }) := by
  unfold Shard.get
  rw [hm]

theorem Shard.set?_fresh (s : Shard KT VT) (key : KT) (kh : Nat) (value : VT)
    (ttl : Int) (now : Nat) (hk : s.key_map kh = none) :
    s.set? key kh value ttl now =
      some { s with
        map := upd s.map key (some { value := value, expire := expireOf ttl now })
        key_map := upd s.key_map kh (some key) } := by
  unfold Shard.set?
  rw [hk]

theorem Shard.set?_evict (s : Shard KT VT) (key : KT) (kh : Nat) (value : VT)
    (ttl : Int) (now : Nat) (removed : KT) (e : Entry VT)
    (hk : s.key_map kh = some removed) (hm : s.map removed = some e) :
    s.set? key kh value ttl now =
      some { s with
        map := upd (upd s.map removed none) key
          (some { value := value, expire := expireOf ttl now })
        key_map := upd (upd s.key_map kh none) kh (some key) } := by
  simp only [Shard.set?, hk, hm]

theorem Shard.set?_raise (s : Shard KT VT) (key : KT) (kh : Nat) (value : VT)
    (ttl : Int) (now : Nat) (removed : KT)
    (hk : s.key_map kh = some removed) (hm : s.map removed = none) :
    s.set? key kh value ttl now = none := by
  simp only [Shard.set?, hk, hm]

theorem Shard.set_ttl_absent (s : Shard KT VT) (key : KT) (ttl : Int)
    (now : Nat) (hm : s.map key = none) : s.set_ttl key ttl now = s := by
  unfold Shard.set_ttl
  rw [hm]

theorem Shard.set_ttl_present (s : Shard KT VT) (key : KT) (ttl : Int)
    (now : Nat) (e : Entry VT) (hm : s.map key = some e) :
    s.set_ttl key ttl now =
      { s with
        map := upd s.map key (some { e with expire := expireOf ttl now }) } := by
  unfold Shard.set_ttl
  rw [hm]

theorem Shard.remove_absent (s : Shard KT VT) (kh : Nat)
    (hk : s.key_map kh = none) : s.remove kh = (false, s) := by
  unfold Shard.remove
  rw [hk]

theorem Shard.remove_dangling (s : Shard KT VT) (kh : Nat) (key : KT)
    (hk : s.key_map kh = some key) (hm : s.map key = none) :
    s.remove kh = (false, { s with key_map := upd s.key_map kh none }) := by
  simp only [Shard.remove, hk, hm]

theorem Shard.remove_present (s : Shard KT VT) (kh : Nat) (key : KT)
    (e : Entry VT) (hk : s.key_map kh = some key) (hm : s.map key = some e) :
    s.remove kh =
      (true,
        { s with
          map := upd s.map key none
          key_map := upd s.key_map kh none }) := by
  simp only [Shard.remove, hk, hm]

theorem Shard.remove_expired_present (s : Shard KT VT) (kh : Nat) (key : KT)
    (e : Entry VT) (hk : s.key_map kh = some key) (hm : s.map key = some e) :
    s.remove_expired kh =
      { s with
        map := upd s.map key none
        key_map := upd s.key_map kh none } := by
  simp only [Shard.remove_expired, hk, hm]

/-- Internal consistency of an entry map / fingerprint map pair relative to
the fingerprint function `fp` the facade feeds the shard: fingerprints stored
in `_key_map` are the fingerprints of the keys they name, every resident key
is indexed under its fingerprint, and every indexed key is resident. -/
structure MapsInv (fp : KT → Nat) (mp : KT → Option (Entry VT))
    (km : Nat → Option KT) : Prop where
  hashOk : ∀ h k, km h = some k → h = fp k
  complete : ∀ k e, mp k = some e → km (fp k) = some k
  roundtrip : ∀ h k, km h = some k → ∃ e, mp k = some e

/-- The consistency invariant of a shard. -/
abbrev ShardInv (fp : KT → Nat) (s : Shard KT VT) : Prop :=
  MapsInv fp s.map s.key_map

theorem shardInv_empty (fp : KT → Nat) :
    ShardInv fp (Shard.empty : Shard KT VT) := by
  refine ⟨?_, ?_, ?_⟩ <;> intro h k hk <;> simp [Shard.empty] at hk

theorem upd_upd {α β : Type} [DecidableEq α] (m : α → Option β) (a : α)
    (v w : Option β) : upd (upd m a v) a w = upd m a w := by
  funext x
  by_cases hx : x = a
  · subst hx; rw [upd_self, upd_self]
  · rw [upd_other _ _ _ _ hx, upd_other _ _ _ _ hx, upd_other _ _ _ _ hx]

/-- Popping a resident key from the entry map together with its fingerprint
from the fingerprint map preserves consistency. -/
theorem mapsInv_popBoth {fp : KT → Nat} {mp : KT → Option (Entry VT)}
    {km : Nat → Option KT} (hi : MapsInv fp mp km) (key : KT) (e : Entry VT)
    (hm : mp key = some e) :
    MapsInv fp (upd mp key none) (upd km (fp key) none) := by
  refine ⟨?_, ?_, ?_⟩
  · intro h k hk
    by_cases hh : h = fp key
    · subst hh; rw [upd_self] at hk; cases hk
    · rw [upd_other _ _ _ _ hh] at hk
      exact hi.hashOk h k hk
  · intro k e' hk
    by_cases hkey : k = key
    · subst hkey; rw [upd_self] at hk; cases hk
    · rw [upd_other _ _ _ _ hkey] at hk
      have h1 := hi.complete k e' hk
      have hne : fp k ≠ fp key := by
        intro heq
        have h2 := hi.complete key e hm
        rw [heq, h2] at h1
        exact hkey (Option.some.inj h1).symm
      rw [upd_other _ _ _ _ hne]
      exact h1
  · intro h k hk
    by_cases hh : h = fp key
    · subst hh; rw [upd_self] at hk; cases hk
    · rw [upd_other _ _ _ _ hh] at hk
      obtain ⟨e', he⟩ := hi.roundtrip h k hk
      have hkey : k ≠ key := by
        intro hkeq
        subst hkeq
        exact hh (hi.hashOk h k hk)
      exact ⟨e', by rw [upd_other _ _ _ _ hkey]; exact he⟩

/-- Inserting a key under its fingerprint preserves consistency provided the
fingerprint slot is free. -/
theorem mapsInv_insert {fp : KT → Nat} {mp : KT → Option (Entry VT)}
    {km : Nat → Option KT} (hi : MapsInv fp mp km) (key : KT) (e : Entry VT)
    (hk0 : km (fp key) = none) :
    MapsInv fp (upd mp key (some e)) (upd km (fp key) (some key)) := by
  refine ⟨?_, ?_, ?_⟩
  · intro h k hk
    by_cases hh : h = fp key
    · subst hh; rw [upd_self] at hk
      cases hk; rfl
    · rw [upd_other _ _ _ _ hh] at hk
      exact hi.hashOk h k hk
  · intro k e' hk
    by_cases hkey : k = key
    · subst hkey; rw [upd_self]
    · rw [upd_other _ _ _ _ hkey] at hk
      have h1 := hi.complete k e' hk
      have hne : fp k ≠ fp key := by
        intro heq
        rw [heq, hk0] at h1
        cases h1
      rw [upd_other _ _ _ _ hne]
      exact h1
  · intro h k hk
    by_cases hh : h = fp key
    · subst hh; rw [upd_self] at hk
      cases hk
      exact ⟨e, upd_self _ _ _⟩
    · rw [upd_other _ _ _ _ hh] at hk
      obtain ⟨e', he⟩ := hi.roundtrip h k hk
      by_cases hkey : k = key
      · subst hkey; exact ⟨e, upd_self _ _ _⟩
      · exact ⟨e', by rw [upd_other _ _ _ _ hkey]; exact he⟩

/-- Overwriting the entry of a resident key preserves consistency. -/
theorem mapsInv_overwrite {fp : KT → Nat} {mp : KT → Option (Entry VT)}
    {km : Nat → Option KT} (hi : MapsInv fp mp km) (key : KT) (e e' : Entry VT)
    (hm : mp key = some e) :
    MapsInv fp (upd mp key (some e')) km := by
  refine ⟨hi.hashOk, ?_, ?_⟩
  · intro k e'' hk
    by_cases hkey : k = key
    · subst hkey
      exact hi.complete _ e hm
    · rw [upd_other _ _ _ _ hkey] at hk
      exact hi.complete k e'' hk
  · intro h k hk
    obtain ⟨e'', he⟩ := hi.roundtrip h k hk
    by_cases hkey : k = key
    · subst hkey; exact ⟨e', upd_self _ _ _⟩
    · exact ⟨e'', by rw [upd_other _ _ _ _ hkey]; exact he⟩

theorem shardInv_get (fp : KT → Nat) (s : Shard KT VT) (key : KT) (now : Nat)
    (hs : ShardInv fp s) : ShardInv fp (s.get key (fp key) now).2 := by
  cases hm : s.map key with
  | none =>
      rw [Shard.get_absent s key (fp key) now hm]
      exact ⟨hs.hashOk, hs.complete, hs.roundtrip⟩
  | some entry =>
      by_cases hx : 0 < entry.expire ∧ entry.expire ≤ now
      · rw [Shard.get_expired s key (fp key) now entry hm hx]
        exact mapsInv_popBoth hs key entry hm
      · rw [Shard.get_hit s key (fp key) now entry hm hx]
        exact ⟨hs.hashOk, hs.complete, hs.roundtrip⟩

theorem shardInv_set (fp : KT → Nat) (s : Shard KT VT) (key : KT) (value : VT)
    (ttl : Int) (now : Nat) (hs : ShardInv fp s) :
    ∃ s', s.set? key (fp key) value ttl now = some s' ∧ ShardInv fp s' := by
  cases hk : s.key_map (fp key) with
  | none =>
      refine ⟨_, Shard.set?_fresh s key (fp key) value ttl now hk, ?_⟩
      exact mapsInv_insert hs key _ hk
  | some removed =>
      obtain ⟨e0, hme⟩ := hs.roundtrip _ _ hk
      refine ⟨_, Shard.set?_evict s key (fp key) value ttl now removed e0 hk hme, ?_⟩
      have hrm : fp key = fp removed := hs.hashOk _ _ hk
      have h1 := mapsInv_popBoth hs removed e0 hme
      rw [← hrm] at h1
      exact mapsInv_insert h1 key
        { value := value, expire := expireOf ttl now } (upd_self _ _ _)

theorem shardInv_set_ttl (fp : KT → Nat) (s : Shard KT VT) (key : KT)
    (ttl : Int) (now : Nat) (hs : ShardInv fp s) :
    ShardInv fp (s.set_ttl key ttl now) := by
  cases hm : s.map key with
  | none =>
      rw [Shard.set_ttl_absent s key ttl now hm]
      exact hs
  | some e =>
      rw [Shard.set_ttl_present s key ttl now e hm]
      exact mapsInv_overwrite hs key e _ hm

theorem shardInv_remove (fp : KT → Nat) (s : Shard KT VT) (kh : Nat)
    (hs : ShardInv fp s) : ShardInv fp (s.remove kh).2 := by
  cases hk : s.key_map kh with
  | none =>
      rw [Shard.remove_absent s kh hk]
      exact hs
  | some key =>
      obtain ⟨e, he⟩ := hs.roundtrip _ _ hk
      rw [Shard.remove_present s kh key e hk he]
      have hkh : kh = fp key := hs.hashOk _ _ hk
      rw [hkh]
      exact mapsInv_popBoth hs key e he

theorem shardInv_remove_expired (fp : KT → Nat) (s : Shard KT VT) (kh : Nat)
    (hs : ShardInv fp s) : ShardInv fp (s.remove_expired kh) := by
  cases hk : s.key_map kh with
  | none =>
      simp only [Shard.remove_expired, hk]
      exact hs
  | some key =>
      cases hm : s.map key with
      | none =>
          simp only [Shard.remove_expired, hk, hm]
          exact hs
      | some e =>
          rw [Shard.remove_expired_present s kh key e hk hm]
          rw [hs.hashOk _ _ hk]
          exact mapsInv_popBoth hs key e hm

theorem shardInv_clear (fp : KT → Nat) (s : Shard KT VT) :
    ShardInv fp s.clear := by
  refine ⟨?_, ?_, ?_⟩ <;> intro h k hk <;> simp [Shard.clear] at hk

/-- The shard operations named by the consistency claim. -/
inductive ShardOp (KT VT : Type) where
  | get (key : KT) (key_hash now : Nat)
  | set (key : KT) (key_hash : Nat) (value : VT) (ttl : Int) (now : Nat)
  | setTtl (key : KT) (ttl : Int) (now : Nat)
  | remove (key_hash : Nat)
  | removeExpired (key_hash : Nat)
  | clear

/-- One shard operation as the source executes it, `none` embedding an
uncaught `KeyError` from `Shard.set`. -/
def stepOp (s : Shard KT VT) : ShardOp KT VT → Option (Shard KT VT)
  | .get key kh now => some (s.get key kh now).2
  | .set key kh value ttl now => s.set? key kh value ttl now
  | .setTtl key ttl now => some (s.set_ttl key ttl now)
  | .remove kh => some (s.remove kh).2
  | .removeExpired kh => some (s.remove_expired kh)
  | .clear => some s.clear

/-- An operation is well-formed when the fingerprint passed along with a key
is that key's fingerprint, as the facade guarantees (`kh = spread(hash(key))`). -/
def wfOp (fp : KT → Nat) : ShardOp KT VT → Bool
  | .get key kh _ => kh == fp key
  | .set key kh _ _ _ => kh == fp key
  | _ => true

/-- Run a sequence of shard operations from a starting state. -/
def runOps : Shard KT VT → List (ShardOp KT VT) → Option (Shard KT VT)
  | s, [] => some s
  | s, op :: rest =>
      match stepOp s op with
      | none => none
      | some s' => runOps s' rest

theorem runOps_inv (fp : KT → Nat) (ops : List (ShardOp KT VT)) :
    ∀ s : Shard KT VT, ShardInv fp s → (∀ op ∈ ops, wfOp fp op = true) →
    ∃ s', runOps s ops = some s' ∧ ShardInv fp s' := by
  induction ops with
  | nil => exact fun s hs _ => ⟨s, rfl, hs⟩
  | cons op rest ih =>
      intro s hs hwf
      have hop := hwf op (List.mem_cons_self op rest)
      have hrest := fun o ho => hwf o (List.mem_cons_of_mem op ho)
      cases op with
      | get key kh now =>
          have hkh : kh = fp key := by simpa [wfOp] using hop
          subst hkh
          obtain ⟨s', h1, h2⟩ := ih _ (shardInv_get fp s key now hs) hrest
          exact ⟨s', by simpa [runOps, stepOp] using h1, h2⟩
      | set key kh value ttl now =>
          have hkh : kh = fp key := by simpa [wfOp] using hop
          subst hkh
          obtain ⟨s0, hset, hinv0⟩ := shardInv_set fp s key value ttl now hs
          obtain ⟨s', h1, h2⟩ := ih _ hinv0 hrest
          exact ⟨s', by simpa [runOps, stepOp, hset] using h1, h2⟩
      | setTtl key ttl now =>
          obtain ⟨s', h1, h2⟩ := ih _ (shardInv_set_ttl fp s key ttl now hs) hrest
          exact ⟨s', by simpa [runOps, stepOp] using h1, h2⟩
      | remove kh =>
          obtain ⟨s', h1, h2⟩ := ih _ (shardInv_remove fp s kh hs) hrest
          exact ⟨s', by simpa [runOps, stepOp] using h1, h2⟩
      | removeExpired kh =>
          obtain ⟨s', h1, h2⟩ := ih _ (shardInv_remove_expired fp s kh hs) hrest
          exact ⟨s', by simpa [runOps, stepOp] using h1, h2⟩
      | clear =>
          obtain ⟨s', h1, h2⟩ := ih _ (shardInv_clear fp s) hrest
          exact ⟨s', by simpa [runOps, stepOp] using h1, h2⟩

/-- C7: for every shard and after every sequence of shard operations (get,
set, set_ttl, remove, remove_expired, clear) issued with each key's true
fingerprint, the set of keys held as values of the fingerprint map equals the
set of keys of the entry map, each key is indexed by exactly one fingerprint,
and fingerprint → key → entry round-trips to a present entry (and no
operation raises). -/
theorem shard_map_consistency (fp : KT → Nat) (ops : List (ShardOp KT VT))
    (hwf : ∀ op ∈ ops, wfOp fp op = true) :
    ∃ s, runOps Shard.empty ops = some s ∧
      (∀ k, (∃ h, s.key_map h = some k) ↔ ∃ e, s.map k = some e) ∧
      (∀ h1 h2 k, s.key_map h1 = some k → s.key_map h2 = some k → h1 = h2) ∧
      (∀ h k, s.key_map h = some k → ∃ e, s.map k = some e) := by
  obtain ⟨s, h1, h2⟩ := runOps_inv fp ops Shard.empty (shardInv_empty fp) hwf
  refine ⟨s, h1, ?_, ?_, ?_⟩
  · intro k
    constructor
    · rintro ⟨h, hh⟩
      exact h2.roundtrip h k hh
    · rintro ⟨e, he⟩
      exact ⟨fp k, h2.complete k e he⟩
  · intro a b k ha hb
    rw [h2.hashOk a k ha, h2.hashOk b k hb]
  · exact h2.roundtrip

/-- A concrete operation sequence exercising every shard operation. -/
def opsWit : List (ShardOp Nat Nat) :=
  [ShardOp.set 1 1 10 0 0, ShardOp.get 1 1 5, ShardOp.set 2 2 20 1000 5,
   ShardOp.setTtl 1 (-3) 6, ShardOp.remove 2, ShardOp.get 3 3 7,
   ShardOp.removeExpired 1, ShardOp.set 4 4 40 0 8, ShardOp.clear]

/-- Witness for the consistency theorem at a concrete operation sequence. -/
theorem shard_map_consistency_witness :
    (∀ op ∈ opsWit, wfOp (fun k => k) op = true) ∧
    ∃ s, runOps Shard.empty opsWit = some s ∧
      (∀ k, (∃ h, s.key_map h = some k) ↔ ∃ e, s.map k = some e) ∧
      (∀ h1 h2 k, s.key_map h1 = some k → s.key_map h2 = some k → h1 = h2) ∧
      (∀ h k, s.key_map h = some k → ∃ e, s.map k = some e) :=
  ⟨by decide, shard_map_consistency (fun k => k) opsWit (by decide)⟩

/-- C5: TTL semantics of shard get/set.  For a present entry, get returns a
hit exactly when `expire_ns = 0` or `expire_ns > now`, incrementing the hit
counter and leaving the maps unchanged; a present but expired entry is
evicted from both maps with the miss counter incremented and a miss returned;
and set stores `expire_ns = now + ttl_ns` when `ttl_ns > 0` and
`expire_ns = 0` otherwise. -/
theorem shard_get_ttl_semantics (s : Shard KT VT) (key : KT) (kh now : Nat)
    (e : Entry VT) (value : VT) (ttl : Int) (hm : s.map key = some e) :
    ((s.get key kh now).1 = (some e.value, true) ↔
        (e.expire = 0 ∨ now < e.expire)) ∧
    ((e.expire = 0 ∨ now < e.expire) →
        (s.get key kh now).2 = { s with hits := s.hits + 1 }) ∧
    ((0 < e.expire ∧ e.expire ≤ now) →
        (s.get key kh now).1 = (none, false) ∧
        (s.get key kh now).2 =
          { s with
            misses := s.misses + 1
            map := upd s.map key none
            key_map := upd s.key_map kh none }) ∧
    (∀ s', s.set? key kh value ttl now = some s' →
        s'.map key =
          some { value := value
                 expire := if 0 < ttl then now + ttl.toNat else 0 }) := by
  have hset : ∀ s', s.set? key kh value ttl now = some s' →
      s'.map key =
        some { value := value
               expire := if 0 < ttl then now + ttl.toNat else 0 } := by
    intro s' hs'
    cases hk : s.key_map kh with
    | none =>
        rw [Shard.set?_fresh s key kh value ttl now hk] at hs'
        cases hs'
        exact upd_self _ _ _
    | some removed =>
        cases hmr : s.map removed with
        | none =>
            rw [Shard.set?_raise s key kh value ttl now removed hk hmr] at hs'
            cases hs'
        | some e2 =>
            rw [Shard.set?_evict s key kh value ttl now removed e2 hk hmr] at hs'
            cases hs'
            exact upd_self _ _ _
  by_cases hx : 0 < e.expire ∧ e.expire ≤ now
  · rw [Shard.get_expired s key kh now e hm hx]
    refine ⟨?_, ?_, ?_, hset⟩
    · constructor
      · intro h
        exact absurd h (by simp)
      · intro h
        exfalso
        omega
    · intro h
      exfalso
      omega
    · intro _
      exact ⟨rfl, rfl⟩
  · rw [Shard.get_hit s key kh now e hm hx]
    refine ⟨?_, ?_, ?_, hset⟩
    · constructor
      · intro _
        omega
      · intro _
        rfl
    · intro _
      rfl
    · intro h
      exact absurd h hx

/-- A concrete one-entry shard used to instantiate the shard-level claims. -/
def shardWit : Shard Nat Nat :=
  { map := upd (fun _ => none) 1 (some { value := 9, expire := 50 })
    key_map := upd (fun _ => none) 1 (some 1)
    hits := 0
    misses := 0 }

/-- Witness for the shard TTL semantics at a concrete shard and time. -/
theorem shard_get_ttl_semantics_witness :
    shardWit.map 1 = some { value := 9, expire := 50 } ∧
    ((shardWit.get 1 1 10).1 = (some 9, true) ↔ (50 = 0 ∨ 10 < 50)) :=
  ⟨rfl, (shard_get_ttl_semantics shardWit 1 1 10
    { value := 9, expire := 50 } 7 5 rfl).1⟩

/-- A shard holding one live entry: key 3, value 42, expiring at the far
future instant 10^15 ns. -/
def shardLive : Shard Nat Nat :=
  { map := upd (fun _ => none) 3 (some { value := 42, expire := 1000000000000000 })
    key_map := upd (fun _ => none) 3 (some 3)
    hits := 0
    misses := 0 }

/-- C2: `remove_expired` on a fingerprint whose entry is not expired.  The
entry expires at 10^15 ns; at time 999 ns a get still returns a hit, so the
entry is not expired, yet `remove_expired` deletes it from both maps — the
source never compares the entry's expire time with the clock, contradicting
its own "check expire before remove" comment and the claim. -/
theorem remove_expired_removes_live_entry :
    shardLive.map 3 = some { value := 42, expire := 1000000000000000 } ∧
    (shardLive.get 3 3 999).1 = (some 42, true) ∧
    (shardLive.remove_expired 3).map 3 = none ∧
    (shardLive.remove_expired 3).key_map 3 = none := by
  refine ⟨rfl, ?_, ?_, ?_⟩ <;> decide

theorem take_set_succ {α : Type} (l : List α) (t : Nat) (x : α)
    (h : t < l.length) : (l.set t x).take (t + 1) = l.take t ++ [x] := by
  induction l generalizing t with
  | nil => simp at h
  | cons a as ih =>
      cases t with
      | zero => simp
      | succ t =>
          simp only [List.set, List.take, List.cons_append]
          rw [ih t (by simpa using h)]

/-- C8: the write buffer never discards a record.  Every `add` stores its
record at the tail; either the whole staged batch, ending with this record
and in enqueue order, is handed to the policy with the tail reset to 0, or
no drain happens and the record stays staged after the old ones; a full
buffer always drains (the acquire turns blocking); and the tail stays below
the capacity 16. -/
theorem write_buffer_add_stages (wb : WriteBuffer) (kh : Nat) (ttl : Int)
    (acq : Bool) (hlen : wb.buffer.length = BufferSize)
    (htail : wb.tail < BufferSize) :
    (∀ batch, (wb.add kh ttl acq).2 = some batch →
        batch = wb.buffer.take wb.tail ++ [(kh, ttl)] ∧
        (wb.add kh ttl acq).1.tail = 0) ∧
    ((wb.add kh ttl acq).2 = none →
        (wb.add kh ttl acq).1.tail = wb.tail + 1 ∧
        (wb.add kh ttl acq).1.buffer.take (wb.tail + 1) =
          wb.buffer.take wb.tail ++ [(kh, ttl)]) ∧
    (wb.tail + 1 = BufferSize → (wb.add kh ttl acq).2 ≠ none) ∧
    (wb.add kh ttl acq).1.tail < BufferSize ∧
    (wb.add kh ttl acq).1.buffer.length = BufferSize := by
  have hts : (wb.buffer.set wb.tail (kh, ttl)).take (wb.tail + 1) =
      wb.buffer.take wb.tail ++ [(kh, ttl)] :=
    take_set_succ wb.buffer wb.tail (kh, ttl) (by omega)
  have hlen2 : (wb.buffer.set wb.tail (kh, ttl)).length = BufferSize := by
    simpa using hlen
  by_cases h16 : BufferSize ≤ wb.tail + 1
  · have hr : wb.add kh ttl acq =
        ({ buffer := wb.buffer.set wb.tail (kh, ttl), tail := 0 },
          some ((wb.buffer.set wb.tail (kh, ttl)).take (wb.tail + 1))) := by
      simp [WriteBuffer.add, if_pos h16]
    rw [hr]
    refine ⟨?_, ?_, ?_, ?_, ?_⟩
    · intro batch hb
      cases hb
      exact ⟨hts, rfl⟩
    · intro h
      cases h
    · intro _ h
      cases h
    · exact (by decide : (0:Nat) < BufferSize)
    · exact hlen2
  · cases acq with
    | true =>
        have hr : wb.add kh ttl true =
            ({ buffer := wb.buffer.set wb.tail (kh, ttl), tail := 0 },
              some ((wb.buffer.set wb.tail (kh, ttl)).take (wb.tail + 1))) := by
          simp [WriteBuffer.add, if_neg h16]
        rw [hr]
        refine ⟨?_, ?_, ?_, ?_, ?_⟩
        · intro batch hb
          cases hb
          exact ⟨hts, rfl⟩
        · intro h
          cases h
        · intro _ h
          cases h
        · exact (by decide : (0:Nat) < BufferSize)
        · exact hlen2
    | false =>
        have hr : wb.add kh ttl false =
            ({ buffer := wb.buffer.set wb.tail (kh, ttl), tail := wb.tail + 1 },
              none) := by
          simp [WriteBuffer.add, if_neg h16]
        rw [hr]
        refine ⟨?_, ?_, ?_, ?_, ?_⟩
        · intro batch hb
          cases hb
        · intro _
          exact ⟨rfl, hts⟩
        · intro h
          omega
        · dsimp only
          omega
        · exact hlen2

/-- Witness for the write-buffer staging theorem on a fresh buffer. -/
theorem write_buffer_add_stages_witness :
    (WriteBuffer.init.buffer.length = BufferSize ∧
      WriteBuffer.init.tail < BufferSize) ∧
    (WriteBuffer.init.add 5 0 false).1.tail < BufferSize :=
  ⟨⟨by decide, by decide⟩,
    (write_buffer_add_stages WriteBuffer.init 5 0 false
      (by decide) (by decide)).2.2.2.1⟩

theorem getD_set_self {α : Type} (l : List α) (i : Nat) (a d : α)
    (h : i < l.length) : (l.set i a).getD i d = a := by
  rw [List.getD_eq_getElem?_getD, List.getElem?_set_self']
  simp [List.getElem?_eq_getElem h]

theorem getD_mem {α : Type} (l : List α) (i : Nat) (d : α)
    (h : i < l.length) : l.getD i d ∈ l := by
  rw [List.getD_eq_getElem?_getD, List.getElem?_eq_getElem h]
  simpa using List.getElem_mem h

theorem and_mask_lt (kh n : Nat) (h : 0 < n) : kh &&& (n - 1) < n :=
  lt_of_le_of_lt Nat.and_le_right (by omega)

theorem expireOf_zero (now : Nat) : expireOf 0 now = 0 := by
  simp [expireOf]

/-- A successful shard `set` leaves the new entry under the key. -/
theorem set?_map_self {s s' : Shard KT VT} {key : KT} {kh : Nat} {value : VT}
    {ttl : Int} {now : Nat} (h : s.set? key kh value ttl now = some s') :
    s'.map key = some { value := value, expire := expireOf ttl now } := by
  cases hk : s.key_map kh with
  | none =>
      rw [Shard.set?_fresh s key kh value ttl now hk] at h
      cases h
      exact upd_self _ _ _
  | some removed =>
      cases hmr : s.map removed with
      | none =>
          rw [Shard.set?_raise s key kh value ttl now removed hk hmr] at h
          cases h
      | some e2 =>
          rw [Shard.set?_evict s key kh value ttl now removed e2 hk hmr] at h
          cases h
          exact upd_self _ _ _

/-- A successful shard `set` points the fingerprint at the new key. -/
theorem set?_keymap_self {s s' : Shard KT VT} {key : KT} {kh : Nat}
    {value : VT} {ttl : Int} {now : Nat}
    (h : s.set? key kh value ttl now = some s') :
    s'.key_map kh = some key := by
  cases hk : s.key_map kh with
  | none =>
      rw [Shard.set?_fresh s key kh value ttl now hk] at h
      cases h
      exact upd_self _ _ _
  | some removed =>
      cases hmr : s.map removed with
      | none =>
          rw [Shard.set?_raise s key kh value ttl now removed hk hmr] at h
          cases h
      | some e2 =>
          rw [Shard.set?_evict s key kh value ttl now removed e2 hk hmr] at h
          cases h
          exact upd_self _ _ _

/-- A shard `set` that collides on the fingerprint evicts the prior holder. -/
theorem set?_map_evicted {s s' : Shard KT VT} {k1 k2 : KT} {kh : Nat}
    {value : VT} {ttl : Int} {now : Nat} (hkm : s.key_map kh = some k1)
    (h : s.set? k2 kh value ttl now = some s') (hne : k1 ≠ k2) :
    s'.map k1 = none := by
  cases hmr : s.map k1 with
  | none =>
      rw [Shard.set?_raise s k2 kh value ttl now k1 hkm hmr] at h
      cases h
  | some e =>
      rw [Shard.set?_evict s k2 kh value ttl now k1 e hkm hmr] at h
      cases h
      show upd (upd s.map k1 none) k2
        (some { value := value, expire := expireOf ttl now }) k1 = none
      rw [upd_other _ _ _ _ hne, upd_self]

/-- Removing a key's own fingerprint leaves the key absent, whatever the
prior state, as long as the shard is consistent. -/
theorem remove_map_self {fp : KT → Nat} {s : Shard KT VT} (hs : ShardInv fp s)
    (k : KT) : (s.remove (fp k)).2.map k = none := by
  cases hk : s.key_map (fp k) with
  | none =>
      rw [Shard.remove_absent s _ hk]
      cases hm : s.map k with
      | none => rfl
      | some e =>
          have h2 := hs.complete k e hm
          rw [hk] at h2
          cases h2
  | some key' =>
      obtain ⟨e, he⟩ := hs.roundtrip _ _ hk
      rw [Shard.remove_present s _ key' e hk he]
      show upd s.map key' none k = none
      by_cases hkk : k = key'
      · subst hkk
        exact upd_self _ _ _
      · rw [upd_other _ _ _ _ hkk]
        cases hm : s.map k with
        | none => rfl
        | some e2 =>
            have h2 := hs.complete k e2 hm
            rw [h2] at hk
            exact absurd (Option.some.inj hk) hkk

/-- The facade-level consistency invariant: there is at least one shard (the
source always builds 16–128) and every shard is internally consistent with
respect to the facade's fingerprint function. -/
def CacheInv (ctx : CacheCtx KT CoreSt) (c : CacheSt KT VT CoreSt) : Prop :=
  0 < c.shards.length ∧ ∀ sh ∈ c.shards, ShardInv ctx.fphash sh

theorem cacheInv_init (ctx : CacheCtx KT CoreSt) (n b : Nat) (core : CoreSt)
    (hn : 0 < n) : CacheInv ctx (Cache.init KT VT CoreSt n b core) := by
  constructor
  · simpa [Cache.init] using hn
  · intro sh hsh
    have : sh = Shard.empty := List.eq_of_mem_replicate hsh
    rw [this]
    exact shardInv_empty ctx.fphash

/-- In a sequential execution the try-acquire succeeds, so `WriteBuffer.add`
always drains. -/
theorem writeBuffer_add_true (wb : WriteBuffer) (kh : Nat) (ttl : Int) :
    wb.add kh ttl true =
      ({ buffer := wb.buffer.set wb.tail (kh, ttl), tail := 0 },
        some ((wb.buffer.set wb.tail (kh, ttl)).take (wb.tail + 1))) := by
  by_cases h16 : BufferSize ≤ wb.tail + 1 <;> simp [WriteBuffer.add, h16]

/-- When the policy core evicts nothing, the write path leaves the shards
alone. -/
theorem writeAdd_shards (ctx : CacheCtx KT CoreSt) (c : CacheSt KT VT CoreSt)
    (kh : Nat) (ttl : Int) (hne : ∀ st b, (ctx.coreSet st b).2 = []) :
    (Cache.writeAdd ctx c kh ttl).shards = c.shards := by
  unfold Cache.writeAdd
  rw [writeBuffer_add_true]
  dsimp only
  rw [hne]
  rfl

/-- `Cache.set` with no TTL, resolved against the owning shard's `set`. -/
theorem cache_set_none (ctx : CacheCtx KT CoreSt) (c : CacheSt KT VT CoreSt)
    (key : KT) (value : VT) (now : Nat)
    (hne : ∀ st b, (ctx.coreSet st b).2 = []) (sh' : Shard KT VT)
    (hsh : (c.shards.getD (ctx.fphash key &&& (c.shards.length - 1))
        default).set? key (ctx.fphash key) value 0 now = some sh') :
    ∃ c', Cache.set ctx c key value none now = Except.ok c' ∧
      c'.shards =
        c.shards.set (ctx.fphash key &&& (c.shards.length - 1)) sh' := by
  refine ⟨Cache.writeAdd ctx
    { c with shards :=
        c.shards.set (ctx.fphash key &&& (c.shards.length - 1)) sh' }
    (ctx.fphash key) 0, ?_, ?_⟩
  · unfold Cache.set
    dsimp only [ttlNano]
    rw [hsh]
  · exact writeAdd_shards ctx _ _ _ hne

/-- The shards left by `Cache.delete` when the policy core evicts nothing. -/
theorem cache_delete_shards (ctx : CacheCtx KT CoreSt)
    (c : CacheSt KT VT CoreSt) (key : KT)
    (hne : ∀ st b, (ctx.coreSet st b).2 = []) :
    (Cache.delete ctx c key).2.shards =
      c.shards.set (ctx.fphash key &&& (c.shards.length - 1))
        ((c.shards.getD (ctx.fphash key &&& (c.shards.length - 1))
          default).remove (ctx.fphash key)).2 := by
  unfold Cache.delete
  dsimp only
  exact writeAdd_shards ctx _ _ _ hne

/-- A facade get whose owning shard holds a live entry returns a hit. -/
theorem cache_get_hit (ctx : CacheCtx KT CoreSt) (c : CacheSt KT VT CoreSt)
    (key : KT) (now rand : Nat) (e : Entry VT)
    (hm : (c.shards.getD (ctx.fphash key &&& (c.shards.length - 1))
        default).map key = some e)
    (hx : ¬(0 < e.expire ∧ e.expire ≤ now)) :
    (Cache.get ctx c key now rand).1 = (some e.value, true) := by
  have h0 : (Cache.get ctx c key now rand).1 =
      ((c.shards.getD (ctx.fphash key &&& (c.shards.length - 1))
        default).get key (ctx.fphash key) now).1 := rfl
  rw [h0, Shard.get_hit _ _ _ _ e hm hx]

/-- A facade get whose owning shard does not hold the key returns a miss. -/
theorem cache_get_absent (ctx : CacheCtx KT CoreSt) (c : CacheSt KT VT CoreSt)
    (key : KT) (now rand : Nat)
    (hm : (c.shards.getD (ctx.fphash key &&& (c.shards.length - 1))
        default).map key = none) :
    (Cache.get ctx c key now rand).1 = (none, false) := by
  have h0 : (Cache.get ctx c key now rand).1 =
      ((c.shards.getD (ctx.fphash key &&& (c.shards.length - 1))
        default).get key (ctx.fphash key) now).1 := rfl
  rw [h0, Shard.get_absent _ _ _ _ hm]

theorem getD_length_after_set (c2 : CacheSt KT VT CoreSt)
    (c : CacheSt KT VT CoreSt) (idx : Nat) (sh' : Shard KT VT)
    (hcs : c2.shards = c.shards.set idx sh') :
    c2.shards.length = c.shards.length := by
  rw [hcs]
  simp

/-- C4: round-trip laws at the facade, executed sequentially with a policy
core that evicts nothing: set then get returns the value with a hit; two
sets then a get return the second value; get after delete misses. -/
theorem cache_round_trip_laws (ctx : CacheCtx KT CoreSt)
    (c : CacheSt KT VT CoreSt) (hne : ∀ st b, (ctx.coreSet st b).2 = [])
    (hInv : CacheInv ctx c) (k : KT) (v v1 v2 : VT)
    (n0 n1 g0 g1 g2 r0 r1 r2 : Nat) :
    (∃ c', Cache.set ctx c k v none n0 = Except.ok c' ∧
        (Cache.get ctx c' k g0 r0).1 = (some v, true)) ∧
    (∃ c1 c2, Cache.set ctx c k v1 none n0 = Except.ok c1 ∧
        Cache.set ctx c1 k v2 none n1 = Except.ok c2 ∧
        (Cache.get ctx c2 k g1 r1).1 = (some v2, true)) ∧
    (Cache.get ctx (Cache.delete ctx c k).2 k g2 r2).1 = (none, false) := by
  obtain ⟨hlen, hall⟩ := hInv
  have hidx : ctx.fphash k &&& (c.shards.length - 1) < c.shards.length :=
    and_mask_lt _ _ hlen
  have hshInv : ShardInv ctx.fphash
      (c.shards.getD (ctx.fphash k &&& (c.shards.length - 1)) default) :=
    hall _ (getD_mem _ _ _ hidx)
  refine ⟨?_, ?_, ?_⟩
  · obtain ⟨sh1, hset1, hinv1⟩ := shardInv_set ctx.fphash _ k v 0 n0 hshInv
    obtain ⟨c', hok, hcs⟩ := cache_set_none ctx c k v n0 hne sh1 hset1
    refine ⟨c', hok, ?_⟩
    apply cache_get_hit ctx c' k g0 r0 { value := v, expire := 0 }
    · rw [getD_length_after_set c' c _ _ hcs, hcs,
        getD_set_self _ _ _ _ hidx]
      have := set?_map_self hset1
      rwa [expireOf_zero] at this
    · simp
  · obtain ⟨sh1, hset1, hinv1⟩ := shardInv_set ctx.fphash _ k v1 0 n0 hshInv
    obtain ⟨c1, hok1, hcs1⟩ := cache_set_none ctx c k v1 n0 hne sh1 hset1
    have hlen1 : c1.shards.length = c.shards.length :=
      getD_length_after_set c1 c _ _ hcs1
    have hgd1 : c1.shards.getD
        (ctx.fphash k &&& (c1.shards.length - 1)) default = sh1 := by
      rw [hlen1, hcs1]
      exact getD_set_self _ _ _ _ hidx
    obtain ⟨sh2, hset2, hinv2⟩ := shardInv_set ctx.fphash sh1 k v2 0 n1 hinv1
    obtain ⟨c2, hok2, hcs2⟩ := cache_set_none ctx c1 k v2 n1 hne sh2
      (by rw [hgd1]; exact hset2)
    have hidx1 : ctx.fphash k &&& (c1.shards.length - 1) <
        c1.shards.length := by
      rw [hlen1]
      exact hidx
    refine ⟨c1, c2, hok1, hok2, ?_⟩
    apply cache_get_hit ctx c2 k g1 r1 { value := v2, expire := 0 }
    · rw [getD_length_after_set c2 c1 _ _ hcs2, hcs2,
        getD_set_self _ _ _ _ hidx1]
      have := set?_map_self hset2
      rwa [expireOf_zero] at this
    · simp
  · apply cache_get_absent
    have hdel := cache_delete_shards ctx c k hne
    rw [getD_length_after_set _ c _ _ hdel, hdel,
      getD_set_self _ _ _ _ hidx]
    exact remove_map_self hshInv k

/-- A trivial model of the native policy core: identity fingerprints, the
policy admits everything and never evicts. -/
def ctxId : CacheCtx Nat Unit :=
  { fphash := fun k => k
    coreSet := fun st _ => (st, [])
    coreAccess := fun st _ => st }

/-- Witness for the round-trip laws on a fresh 16-shard cache. -/
theorem cache_round_trip_laws_witness :
    (∀ (st : Unit) (b : List (Nat × Int)), (ctxId.coreSet st b).2 = []) ∧
    (Cache.get ctxId
      (Cache.delete ctxId (Cache.init Nat Nat Unit 16 64 ()) 9).2
      9 0 0).1 = (none, false) :=
  ⟨fun _ _ => rfl,
    (cache_round_trip_laws ctxId (Cache.init Nat Nat Unit 16 64 ())
      (fun _ _ => rfl) (cacheInv_init ctxId 16 64 () (by decide))
      9 1 2 3 0 0 0 0 0 0 0 0).2.2⟩

/-- C6: fingerprint-collision resolution.  For distinct keys with the same
fingerprint, the second set evicts the first key from both shard maps before
inserting its own entry; afterwards get of the second key hits with the new
value and get of the first key misses. -/
theorem collision_later_set_wins (ctx : CacheCtx KT CoreSt)
    (c : CacheSt KT VT CoreSt) (hne : ∀ st b, (ctx.coreSet st b).2 = [])
    (hInv : CacheInv ctx c) (k1 k2 : KT) (hk12 : k1 ≠ k2)
    (hcol : ctx.fphash k1 = ctx.fphash k2) (v1 v2 : VT)
    (n0 n1 g1 g2 r1 r2 : Nat) :
    ∃ c1 c2, Cache.set ctx c k1 v1 none n0 = Except.ok c1 ∧
      Cache.set ctx c1 k2 v2 none n1 = Except.ok c2 ∧
      (c2.shards.getD (ctx.fphash k2 &&& (c2.shards.length - 1))
        default).map k1 = none ∧
      (c2.shards.getD (ctx.fphash k2 &&& (c2.shards.length - 1))
        default).key_map (ctx.fphash k2) = some k2 ∧
      (Cache.get ctx c2 k2 g1 r1).1 = (some v2, true) ∧
      (Cache.get ctx c2 k1 g2 r2).1 = (none, false) := by
  obtain ⟨hlen, hall⟩ := hInv
  have hidx : ctx.fphash k1 &&& (c.shards.length - 1) < c.shards.length :=
    and_mask_lt _ _ hlen
  have hshInv : ShardInv ctx.fphash
      (c.shards.getD (ctx.fphash k1 &&& (c.shards.length - 1)) default) :=
    hall _ (getD_mem _ _ _ hidx)
  obtain ⟨sh1, hset1, hinv1⟩ := shardInv_set ctx.fphash _ k1 v1 0 n0 hshInv
  obtain ⟨c1, hok1, hcs1⟩ := cache_set_none ctx c k1 v1 n0 hne sh1 hset1
  have hlen1 : c1.shards.length = c.shards.length :=
    getD_length_after_set c1 c _ _ hcs1
  have hgd1 : c1.shards.getD
      (ctx.fphash k2 &&& (c1.shards.length - 1)) default = sh1 := by
    rw [hlen1, ← hcol, hcs1]
    exact getD_set_self _ _ _ _ hidx
  obtain ⟨sh2, hset2, hinv2⟩ := shardInv_set ctx.fphash sh1 k2 v2 0 n1 hinv1
  obtain ⟨c2, hok2, hcs2⟩ := cache_set_none ctx c1 k2 v2 n1 hne sh2
    (by rw [hgd1]; exact hset2)
  have hidx1 : ctx.fphash k2 &&& (c1.shards.length - 1) <
      c1.shards.length := by
    rw [hlen1, ← hcol]
    exact hidx
  have hgd2 : c2.shards.getD
      (ctx.fphash k2 &&& (c2.shards.length - 1)) default = sh2 := by
    rw [getD_length_after_set c2 c1 _ _ hcs2, hcs2]
    exact getD_set_self _ _ _ _ hidx1
  have hkm1 : sh1.key_map (ctx.fphash k2) = some k1 := by
    rw [← hcol]
    exact set?_keymap_self hset1
  have hm2k2 : sh2.map k2 = some { value := v2, expire := 0 } := by
    have := set?_map_self hset2
    rwa [expireOf_zero] at this
  have hm2k1 : sh2.map k1 = none := set?_map_evicted hkm1 hset2 hk12
  refine ⟨c1, c2, hok1, hok2, ?_, ?_, ?_, ?_⟩
  · rw [hgd2]
    exact hm2k1
  · rw [hgd2]
    exact set?_keymap_self hset2
  · apply cache_get_hit ctx c2 k2 g1 r1 { value := v2, expire := 0 }
    · rw [hgd2]
      exact hm2k2
    · simp
  · apply cache_get_absent
    have hix : ctx.fphash k1 &&& (c2.shards.length - 1) =
        ctx.fphash k2 &&& (c2.shards.length - 1) := by
      rw [hcol]
    rw [hix, hgd2]
    exact hm2k1

/-- A policy-core model whose fingerprint function collides on keys equal
modulo 4, to exercise the collision path. -/
def ctxMod : CacheCtx Nat Unit :=
  { fphash := fun k => k % 4
    coreSet := fun st _ => (st, [])
    coreAccess := fun st _ => st }

/-- Witness for the collision theorem at keys 1 and 5 (both fingerprint 1). -/
theorem collision_later_set_wins_witness :
    ((1 : Nat) ≠ 5 ∧ ctxMod.fphash 1 = ctxMod.fphash 5) ∧
    (∃ c1 c2, Cache.set ctxMod (Cache.init Nat Nat Unit 16 64 ())
        1 11 none 0 = Except.ok c1 ∧
      Cache.set ctxMod c1 5 22 none 1 = Except.ok c2 ∧
      (c2.shards.getD (ctxMod.fphash 5 &&& (c2.shards.length - 1))
        default).map 1 = none ∧
      (c2.shards.getD (ctxMod.fphash 5 &&& (c2.shards.length - 1))
        default).key_map (ctxMod.fphash 5) = some 5 ∧
      (Cache.get ctxMod c2 5 7 0).1 = (some 22, true) ∧
      (Cache.get ctxMod c2 1 8 0).1 = (none, false)) :=
  ⟨⟨by decide, by decide⟩,
    collision_later_set_wins ctxMod (Cache.init Nat Nat Unit 16 64 ())
      (fun _ _ => rfl) (cacheInv_init ctxMod 16 64 () (by decide))
      1 5 (by decide) (by decide) 11 22 0 1 7 8 0 0⟩

/-- C1: the TTL check of `Cache.set`.  A zero TTL raises "ttl must be
positive", and an absent or positive TTL stores the value — but a negative
TTL (here -1 s, passed as microseconds) is NOT rejected: the source only
compares `total_seconds()` with zero, so the entry is silently stored with
`expire = 0`, i.e. no expiration, contradicting the claim and the method's
own docstring. -/
theorem set_negative_ttl_not_rejected :
    Cache.set ctxId (Cache.init Nat Nat Unit 16 64 ()) 5 7 (some 0) 100 =
      Except.error "ttl must be positive" ∧
    (Cache.set ctxId (Cache.init Nat Nat Unit 16 64 ()) 5 7 none 100).map
      (fun c' => (c'.shards.getD 5 default).map 5) =
      Except.ok (some { value := 7, expire := 0 }) ∧
    (Cache.set ctxId (Cache.init Nat Nat Unit 16 64 ()) 5 7
        (some 2000000) 100).map
      (fun c' => (c'.shards.getD 5 default).map 5) =
      Except.ok (some { value := 7, expire := 2000000100 }) ∧
    (Cache.set ctxId (Cache.init Nat Nat Unit 16 64 ()) 5 7
        (some (-1000000)) 100).map
      (fun c' => (c'.shards.getD 5 default).map 5) =
      Except.ok (some { value := 7, expire := 0 }) := by
  refine ⟨rfl, rfl, rfl, rfl⟩

/-- A shard after `Cache.stats` consumed one value from each counter. -/
def bumpShard (s : Shard KT VT) : Shard KT VT :=
  { s with hits := s.hits + 1, misses := s.misses + 1 }

theorem statsGo_fst (l : List (Shard KT VT)) (h m : Nat) :
    (statsGo l h m).1 =
      (h + (l.map Shard.hits).sum, m + (l.map Shard.misses).sum) := by
  induction l generalizing h m with
  | nil => simp [statsGo]
  | cons s rest ih => simp [statsGo, ih, Nat.add_assoc]

theorem statsGo_snd (l : List (Shard KT VT)) (h m : Nat) :
    (statsGo l h m).2 = l.map bumpShard := by
  induction l generalizing h m with
  | nil => simp [statsGo]
  | cons s rest ih => simp [statsGo, ih, bumpShard]

theorem sum_hits_bump (l : List (Shard KT VT)) :
    ((l.map bumpShard).map Shard.hits).sum = (l.map Shard.hits).sum + l.length := by
  induction l with
  | nil => rfl
  | cons s rest ih =>
      simp only [List.map_cons, List.sum_cons, List.length_cons, ih, bumpShard]
      omega

theorem sum_misses_bump (l : List (Shard KT VT)) :
    ((l.map bumpShard).map Shard.misses).sum =
      (l.map Shard.misses).sum + l.length := by
  induction l with
  | nil => rfl
  | cons s rest ih =>
      simp only [List.map_cons, List.sum_cons, List.length_cons, ih, bumpShard]
      omega

theorem stats_fst (c : CacheSt KT VT CoreSt) :
    (Cache.stats c).1 =
      CacheStats.make (sumHits c + sumMisses c) (sumHits c) := by
  unfold Cache.stats
  dsimp only
  rw [statsGo_fst]
  dsimp only [sumHits, sumMisses]
  simp

theorem stats_snd_shards (c : CacheSt KT VT CoreSt) :
    (Cache.stats c).2.shards = c.shards.map bumpShard := by
  unfold Cache.stats
  dsimp only
  rw [statsGo_snd]

/-- C3 (amended): a single stats() call reports the exact counter totals —
after n hits and m misses it returns request_count n+m, hit_count n,
miss_count m — but stats() is not pure: reading each counter with `next`
advances it, so every call adds one hit and one miss per shard, and a second
consecutive call reports hit_count n + shard_count and miss_count
m + shard_count. -/
theorem stats_exact_but_impure (c : CacheSt KT VT CoreSt)
    (h : 0 < sumHits c + sumMisses c) :
    (Cache.stats c).1 = Except.ok
      { request_count := sumHits c + sumMisses c
        hit_count := sumHits c
        miss_count := sumMisses c
        hit_rate := (sumHits c : ℚ) /
          (((sumHits c + sumMisses c : Nat)) : ℚ) } ∧
    sumHits (Cache.stats c).2 = sumHits c + c.shards.length ∧
    sumMisses (Cache.stats c).2 = sumMisses c + c.shards.length ∧
    (Cache.stats c).2.shards.length = c.shards.length := by
  refine ⟨?_, ?_, ?_, ?_⟩
  · rw [stats_fst]
    have hne0 : ¬(sumHits c + sumMisses c = 0) := by omega
    simp only [CacheStats.make, if_neg hne0]
    have hmm : sumHits c + sumMisses c - sumHits c = sumMisses c := by omega
    rw [hmm]
  · show ((Cache.stats c).2.shards.map Shard.hits).sum =
      (c.shards.map Shard.hits).sum + c.shards.length
    rw [stats_snd_shards]
    exact sum_hits_bump c.shards
  · show ((Cache.stats c).2.shards.map Shard.misses).sum =
      (c.shards.map Shard.misses).sum + c.shards.length
    rw [stats_snd_shards]
    exact sum_misses_bump c.shards
  · rw [stats_snd_shards]
    simp

/-- The fresh 16-shard cache after a single missing get: one miss recorded,
no hit. -/
def cacheMissed : CacheSt Nat Nat Unit :=
  (Cache.get ctxId (Cache.init Nat Nat Unit 16 64 ()) 5 0 0).2

/-- Witness for the amended stats theorem at the one-miss cache. -/
theorem stats_exact_but_impure_witness :
    0 < sumHits cacheMissed + sumMisses cacheMissed ∧
    sumHits (Cache.stats cacheMissed).2 =
      sumHits cacheMissed + cacheMissed.shards.length :=
  ⟨by decide, (stats_exact_but_impure cacheMissed (by decide)).2.1⟩

/-- C3 counterexample: two consecutive stats() calls with no intervening
cache operation do not report equal counts: on a cache with one recorded
miss the first call reports (hits 0, misses 1) but the second reports
(hits 16, misses 17), because the first call advanced both counters of each
of the 16 shards. -/
theorem stats_consecutive_calls_differ :
    (Cache.stats cacheMissed).1.map CacheStats.hit_count = Except.ok 0 ∧
    (Cache.stats cacheMissed).1.map CacheStats.miss_count = Except.ok 1 ∧
    (Cache.stats (Cache.stats cacheMissed).2).1.map CacheStats.hit_count =
      Except.ok 16 ∧
    (Cache.stats (Cache.stats cacheMissed).2).1.map CacheStats.miss_count =
      Except.ok 17 := by
  refine ⟨rfl, rfl, rfl, rfl⟩

/-- C10: `stats()` on a cache on which no get has ever completed divides by
zero (`hit_count / request_count` with `request_count = 0`), modelled as the
error result of `CacheStats.make`; with at least one completed get the
request count is positive and stats() returns a result. -/
theorem stats_division_by_zero (n b : Nat) (core : CoreSt)
    (c : CacheSt KT VT CoreSt) :
    (Cache.stats (Cache.init KT VT CoreSt n b core)).1 =
      Except.error "division by zero" ∧
    (0 < sumHits c + sumMisses c →
      ∃ st, (Cache.stats c).1 = Except.ok st) := by
  constructor
  · rw [stats_fst]
    have h0 : sumHits (Cache.init KT VT CoreSt n b core) = 0 := by
      simp [sumHits, Cache.init, Shard.empty]
    have h1 : sumMisses (Cache.init KT VT CoreSt n b core) = 0 := by
      simp [sumMisses, Cache.init, Shard.empty]
    rw [h0, h1]
    rfl
  · intro h
    rw [stats_fst]
    have hne0 : ¬(sumHits c + sumMisses c = 0) := by omega
    simp only [CacheStats.make, if_neg hne0]
    exact ⟨_, rfl⟩

/-- Witness for the division-by-zero theorem: the fresh cache errors, the
one-miss cache returns a result. -/
theorem stats_division_by_zero_witness :
    (Cache.stats (Cache.init Nat Nat Unit 16 64 ())).1 =
      Except.error "division by zero" ∧
    (0 < sumHits cacheMissed + sumMisses cacheMissed ∧
      ∃ st, (Cache.stats cacheMissed).1 = Except.ok st) :=
  ⟨(stats_division_by_zero 16 64 () cacheMissed).1,
    ⟨by decide, (stats_division_by_zero 16 64 () cacheMissed).2 (by decide)⟩⟩

end Theine
